import Mathlib

/-!
Verification development for the readfilez crate.

The model below is a shallow embedding of the two source files of the
repository, src/backend.rs and src/lib.rs.  A file is modelled as a list of
bytes; the operating system primitives that the code calls (metadata query,
mapping creation, seeking, buffered reads) are modelled through a small
oracle structure SysModel whose fields say whether each primitive succeeds.
Machine integers are modelled as Nat with explicit reduction modulo 2 ^ 64
where the Rust code can wrap (release build semantics of u64 and usize on a
64 bit platform; debug builds would panic at the same spots).
-/

/-- Wrap-around modulus of 64 bit unsigned integers (u64 and usize on a
64 bit platform). -/
def u64Mod : Nat := 18446744073709551616

/-- The same modulus as an integer, used when an i64 value is cast to u64. -/
def u64ModI : Int := 18446744073709551616

/-- The value of the largest isize on a 64 bit platform; backend.rs line 35
uses it as the platform mapping ceiling maxlen_i. -/
def isizeMax : Nat := 9223372036854775807

/-- Wrapping subtraction of two u64 values, modelling the release build
semantics of the Rust expression a - b on u64 when b can exceed a
(backend.rs line 40 and lib.rs line 215 perform such unguarded
subtractions). -/
def wsub64 (a b : Nat) : Nat := (u64Mod + a % u64Mod - b % u64Mod) % u64Mod

/-- The result of casting the negation of an i64 value to u64, as in the
expressions (-x) as u64 of backend.rs line 121 and lib.rs line 154. -/
def neg_as_u64 (x : Int) : Nat := ((-x) % u64ModI).toNat

/-- LengthSpec from lib.rs: an optional upper bound on the bytes to read,
and whether the resolved byte count must be delivered exactly. -/
structure LengthSpec where
  bound : Option Nat
  is_exact : Bool
  deriving DecidableEq, Repr

/-- EvaluatedLength from backend.rs: the outcome of the length resolver. -/
inductive EvaluatedLength where
  | ELUnknown
  | ELImpossible
  | ELBounded (n : Nat)
  deriving DecidableEq, Repr

/-- FileHandle from lib.rs: a mapped view or an owned buffer; both are
modelled by the byte list they expose. -/
inductive FileHandle where
  | Mapped (data : List Nat)
  | Buffered (data : List Nat)
  deriving DecidableEq, Repr

/-- The uniform slice view of a handle (lib.rs get_slice). -/
def FileHandle.get_slice : FileHandle → List Nat
  | .Mapped d => d
  | .Buffered d => d

/-- Byte length of a handle, as used through the Deref impl in lib.rs. -/
def FileHandle.len (h : FileHandle) : Nat := h.get_slice.length

/-- Error kinds surfaced by the modelled operations. -/
inductive IOErr where
  | invalidInput
  | unexpectedEof
  | readErr
  | seekErr
  deriving DecidableEq, Repr

/-- Outcome of the read_to_end primitive: either it obtains all remaining
bytes, or it fails after obtaining some prefix of them. -/
inductive RteResult where
  | ok
  | fail (got : Nat)
  deriving DecidableEq, Repr

/-- Oracle for the external primitives: whether the metadata query, the
mapping creation, the seek and the buffered read calls succeed. -/
structure SysModel where
  mmapOk : Bool
  statOk : Bool
  seekOk : Bool
  readExactFail : Bool
  readFail : Bool
  rte : RteResult
  deriving DecidableEq, Repr

/-- get_file_len from lib.rs: the metadata length query, which can fail. -/
def get_file_len (content : List Nat) (sys : SysModel) : Option Nat :=
  if sys.statOk then some content.length else none

/-- open_as_mmap from backend.rs: creating a read only mapping of lenb bytes
at offset either succeeds with that view or fails for an unspecified
platform reason. -/
def open_as_mmap (content : List Nat) (offset lenb : Nat) (sys : SysModel) :
    Option (List Nat) :=
  if sys.mmapOk then some ((content.drop offset).take lenb) else none

/-- eval_length from backend.rs lines 29 to 61, the length resolver.
flenQuery stands for the value get_file_len would return, consulted only
when flen_hint is none, exactly as the or_else call in the source.  The
subtraction lx - offset of line 40 is the wrapping wsub64; the cast to
usize is the identity on a 64 bit platform. -/
def eval_length (flenQuery : Option Nat) (offset : Nat) (lenspec : LengthSpec)
    (flen_hint : Option Nat) : EvaluatedLength :=
  let maxlen_i := isizeMax
  let is_untileof := lenspec.bound.isNone
  let x := lenspec.bound.getD maxlen_i
  let maxlen_f := ((flen_hint.or flenQuery).map (fun lx => wsub64 lx offset)).getD maxlen_i
  let maxlen := min maxlen_f maxlen_i
  if maxlen < x then
    if lenspec.is_exact = false then .ELBounded maxlen
    else if is_untileof = false then .ELImpossible
    else if maxlen = maxlen_i then .ELUnknown
    else .ELBounded maxlen
  else
    if is_untileof = true then .ELUnknown
    else .ELBounded x

/-- The shared buffered tail of read_part_from_file_intern, backend.rs lines
92 to 116: seek to the offset, then read according to the evaluated length.
For a bounded count the source resizes the buffer to lx zeros and issues one
read call whose byte count is discarded, so on a short read the buffer stays
zero padded at full length lx; read_exact instead fails unless all lx bytes
are obtained.  For the unknown case read_to_end appends the obtained bytes
and a failure is propagated only when the request was exact or nothing was
obtained.  The ELImpossible arm is unreachable from the caller (the source
marks it unreachable_unchecked). -/
def read_buffered_tail (content : List Nat) (offset : Nat) (len : LengthSpec)
    (evl : EvaluatedLength) (sys : SysModel) : Except IOErr FileHandle :=
  if sys.seekOk = false then .error .seekErr
  else
    match evl with
    | .ELImpossible => .error .invalidInput
    | .ELBounded lx =>
        if len.is_exact = true then
          if sys.readExactFail = true then .error .readErr
          else if ((content.drop offset).take lx).length < lx then .error .unexpectedEof
          else .ok (.Buffered ((content.drop offset).take lx))
        else
          if sys.readFail = true then .error .readErr
          else .ok (.Buffered ((content.drop offset).take lx ++
            List.replicate (lx - ((content.drop offset).take lx).length) 0))
    | .ELUnknown =>
        match sys.rte with
        | .ok => .ok (.Buffered (content.drop offset))
        | .fail k =>
            if len.is_exact = true ∨ (content.drop offset).take k = [] then
              .error .readErr
            else .ok (.Buffered ((content.drop offset).take k))

/-- read_part_from_file_intern from backend.rs lines 66 to 117: resolve the
length, fail on ELImpossible, answer an empty buffer for ELBounded 0, try
the mapping for a positive bounded count and fall back to the buffered tail
when the mapping fails, and go directly to the buffered tail (never mapping)
for ELUnknown. -/
def read_part_from_file_intern (content : List Nat) (offset : Nat)
    (len : LengthSpec) (flen_hint : Option Nat) (sys : SysModel) :
    Except IOErr FileHandle :=
  match eval_length (get_file_len content sys) offset len flen_hint with
  | .ELImpossible => .error .invalidInput
  | .ELBounded 0 => .ok (.Buffered [])
  | .ELBounded lx =>
      match open_as_mmap content offset lx sys with
      | some ret => .ok (.Mapped ret)
      | none => read_buffered_tail content offset len (.ELBounded lx) sys
  | .ELUnknown => read_buffered_tail content offset len .ELUnknown sys

/-- do_offset_add from backend.rs lines 119 to 126: checked subtraction for
a negative delta, plain (wrapping) u64 addition for a nonnegative one. -/
def do_offset_add (offset : Nat) (x : Int) : Option Nat :=
  if x < 0 then
    if neg_as_u64 x ≤ offset then some (offset - neg_as_u64 x) else none
  else some ((offset + x.toNat) % u64Mod)

/-- ContinuableFile from lib.rs: the owned file, the cached length and the
logical offset. -/
structure ContinuableFile where
  content : List Nat
  flen : Option Nat
  offset : Nat
  deriving DecidableEq, Repr

/-- ContinuableFile next from lib.rs lines 136 to 140: perform the range
read at the current offset with the cached length as hint, and advance the
offset by the length of the returned handle; on error the offset is left
unchanged. -/
def ContinuableFile.next (cf : ContinuableFile) (lns : LengthSpec)
    (sys : SysModel) : Except IOErr FileHandle × ContinuableFile :=
  match read_part_from_file_intern cf.content cf.offset lns cf.flen sys with
  | .ok rfh => (.ok rfh, { cf with offset := (cf.offset + rfh.len) % u64Mod })
  | .error e => (.error e, cf)

/-- The three seek modes of std io SeekFrom. -/
inductive SeekFrom where
  | start (x : Nat)
  | fromEnd (x : Int)
  | current (x : Int)
  deriving DecidableEq, Repr

/-- The Seek impl for ContinuableFile, lib.rs lines 144 to 167.  The pair
returned holds the io result and the state of the cursor afterwards. -/
def ContinuableFile.seek (cf : ContinuableFile) (pos : SeekFrom) :
    Except IOErr Nat × ContinuableFile :=
  match pos with
  | .start x => (.ok x, { cf with offset := x })
  | .fromEnd x =>
      if 0 < x then (.error .invalidInput, cf)
      else
        match cf.flen with
        | none => (.error .invalidInput, cf)
        | some fl =>
            if fl < neg_as_u64 x then (.error .invalidInput, cf)
            else (.ok (fl - neg_as_u64 x), { cf with offset := fl - neg_as_u64 x })
  | .current x =>
      match do_offset_add cf.offset x with
      | some y => (.ok y, { cf with offset := y })
      | none => (.error .invalidInput, cf)

/-- ChunkedFile from lib.rs: a cursor plus the fixed LengthSpec applied on
every iteration step. -/
structure ChunkedFile where
  cf : ContinuableFile
  lns : LengthSpec
  deriving DecidableEq, Repr

/-- The Iterator next impl for ChunkedFile, lib.rs lines 204 to 210: one
advance read; a successful zero length handle becomes none (end of the
sequence for this step), anything else is yielded as an element. -/
def ChunkedFile.next (c : ChunkedFile) (sys : SysModel) :
    Option (Except IOErr FileHandle) × ChunkedFile :=
  match c.cf.next c.lns sys with
  | (.ok x, cf2) =>
      if x.len = 0 then (none, { c with cf := cf2 })
      else (some (.ok x), { c with cf := cf2 })
  | (.error e, cf2) => (some (.error e), { c with cf := cf2 })

/-- The size_hint impl for ChunkedFile, lib.rs lines 212 to 219: the lower
estimate is the cached length minus the offset (wrapping u64 subtraction,
cast to usize) when the cached length is known, else zero; the upper
estimate is always none. -/
def ChunkedFile.size_hint (c : ChunkedFile) : Nat × Option Nat :=
  ((c.cf.flen.map (fun x => wsub64 x c.cf.offset)).getD 0, none)

/-- The length resolver exactly as claim C1 states it: the requested value
of an unbounded request is plus infinity, here represented by comparing
through an option where none is larger than every number.  This definition
follows the words of the specification, for comparison with eval_length. -/
def spec_resolve_claimed (flen : Option Nat) (offset : Nat) (ls : LengthSpec) :
    EvaluatedLength :=
  let maxlen : Nat :=
    match flen with
    | some lx => min (lx - offset) isizeMax
    | none => isizeMax
  let requestedAboveMaxlen : Bool :=
    match ls.bound with
    | none => true
    | some n => decide (maxlen < n)
  if requestedAboveMaxlen = true then
    if ls.is_exact = false then .ELBounded maxlen
    else if ls.bound.isSome = true then .ELImpossible
    else if maxlen = isizeMax then .ELUnknown
    else .ELBounded maxlen
  else
    if ls.bound = none then .ELUnknown
    else .ELBounded (ls.bound.getD 0)

/-- The length resolver as claim C1 reads after the one amendment the code
forces: the requested value of an unbounded request is the platform ceiling
maxlen_i itself, not plus infinity, so an unbounded request whose maxlen
equals the ceiling falls into the requested at most maxlen branch and
resolves to Unknown regardless of exactness. -/
def spec_resolve_amended (flen : Option Nat) (offset : Nat) (ls : LengthSpec) :
    EvaluatedLength :=
  let maxlen : Nat :=
    match flen with
    | some lx => min (lx - offset) isizeMax
    | none => isizeMax
  let requested : Nat := ls.bound.getD isizeMax
  if maxlen < requested then
    if ls.is_exact = false then .ELBounded maxlen
    else if ls.bound.isSome = true then .ELImpossible
    else if maxlen = isizeMax then .ELUnknown
    else .ELBounded maxlen
  else
    if ls.bound = none then .ELUnknown
    else .ELBounded requested

/-- A ten byte file, used for concrete witnesses. -/
def r10 : List Nat := List.range 10

/-- Oracle where every primitive succeeds except mapping creation. -/
def sysB : SysModel :=
  { mmapOk := false, statOk := true, seekOk := true,
    readExactFail := false, readFail := false, rte := .ok }

/-- Oracle where every primitive succeeds, including mapping creation. -/
def sysM : SysModel :=
  { mmapOk := true, statOk := true, seekOk := true,
    readExactFail := false, readFail := false, rte := .ok }

/-- Oracle for an unknown length stream whose read_to_end fails after
obtaining three bytes. -/
def sysU : SysModel :=
  { mmapOk := false, statOk := false, seekOk := true,
    readExactFail := false, readFail := false, rte := .fail 3 }

/-- A chunked file over the ten byte file whose fixed request always fails
(twenty exact bytes are never available). -/
def cErr : ChunkedFile :=
  { cf := { content := r10, flen := some 10, offset := 0 },
    lns := { bound := some 20, is_exact := true } }

/-- The chunked file of the worked example in the specification: ten bytes,
bound four, not exact. -/
def c8s0 : ChunkedFile :=
  { cf := { content := r10, flen := some 10, offset := 0 },
    lns := { bound := some 4, is_exact := false } }

/-- The state after one step of the worked example. -/
def c8s1 : ChunkedFile := (c8s0.next sysB).2

/-- The state after two steps of the worked example. -/
def c8s2 : ChunkedFile := (c8s1.next sysB).2

/-- The state after three steps of the worked example. -/
def c8s3 : ChunkedFile := (c8s2.next sysB).2

instance {ε α : Type} [DecidableEq ε] [DecidableEq α] : DecidableEq (Except ε α) := fun a b =>
  match a, b with
  | .ok x, .ok y =>
      if h : x = y then .isTrue (by rw [h]) else .isFalse (fun hc => h (Except.ok.inj hc))
  | .ok _, .error _ => .isFalse (fun hc => Except.noConfusion hc)
  | .error _, .ok _ => .isFalse (fun hc => Except.noConfusion hc)
  | .error e, .error f =>
      if h : e = f then .isTrue (by rw [h]) else .isFalse (fun hc => h (Except.error.inj hc))

theorem wsub64_eq_sub (a b : Nat) (ha : a < u64Mod) (hb : b ≤ a) :
    wsub64 a b = a - b := by
  unfold wsub64
  rw [Nat.mod_eq_of_lt ha, Nat.mod_eq_of_lt (lt_of_le_of_lt hb ha),
    Nat.add_sub_assoc hb, Nat.add_mod_left]
  exact Nat.mod_eq_of_lt (lt_of_le_of_lt (Nat.sub_le a b) ha)

theorem eval_length_bounded_of_le (q : Option Nat) (L off n : Nat) (ex : Bool)
    (hoff : off ≤ L) (hL : L < u64Mod) (hn : n ≤ L - off) (hni : n ≤ isizeMax) :
    eval_length q off { bound := some n, is_exact := ex } (some L) = .ELBounded n := by
  have hw : wsub64 L off = L - off := wsub64_eq_sub L off hL hoff
  have hm : n ≤ min (L - off) isizeMax := le_min hn hni
  simp [eval_length, hw, Nat.not_lt.mpr hm]

theorem eval_length_impossible_of_lt (q : Option Nat) (L off n : Nat)
    (hoff : off ≤ L) (hL : L < u64Mod) (hn : min (L - off) isizeMax < n) :
    eval_length q off { bound := some n, is_exact := true } (some L) = .ELImpossible := by
  have hw : wsub64 L off = L - off := wsub64_eq_sub L off hL hoff
  simp [eval_length, hw, hn]

theorem eval_length_clamp_of_lt (q : Option Nat) (L off n : Nat)
    (hoff : off ≤ L) (hL : L < u64Mod) (hn : min (L - off) isizeMax < n) :
    eval_length q off { bound := some n, is_exact := false } (some L)
      = .ELBounded (min (L - off) isizeMax) := by
  have hw : wsub64 L off = L - off := wsub64_eq_sub L off hL hoff
  simp [eval_length, hw, hn]

theorem read_part_of_eval_impossible (content : List Nat) (off : Nat)
    (len : LengthSpec) (fh : Option Nat) (sys : SysModel)
    (heval : eval_length (get_file_len content sys) off len fh = .ELImpossible) :
    read_part_from_file_intern content off len fh sys = .error .invalidInput := by
  unfold read_part_from_file_intern
  rw [heval]

theorem read_part_of_eval_zero (content : List Nat) (off : Nat)
    (len : LengthSpec) (fh : Option Nat) (sys : SysModel)
    (heval : eval_length (get_file_len content sys) off len fh = .ELBounded 0) :
    read_part_from_file_intern content off len fh sys = .ok (.Buffered []) := by
  unfold read_part_from_file_intern
  rw [heval]

theorem read_part_of_eval_bounded_succ (content : List Nat) (off : Nat)
    (len : LengthSpec) (fh : Option Nat) (sys : SysModel) (m : Nat)
    (heval : eval_length (get_file_len content sys) off len fh = .ELBounded (m + 1)) :
    read_part_from_file_intern content off len fh sys =
      match open_as_mmap content off (m + 1) sys with
      | some ret => .ok (.Mapped ret)
      | none => read_buffered_tail content off len (.ELBounded (m + 1)) sys := by
  unfold read_part_from_file_intern
  rw [heval]
  rfl

theorem read_part_of_eval_unknown (content : List Nat) (off : Nat)
    (len : LengthSpec) (fh : Option Nat) (sys : SysModel)
    (heval : eval_length (get_file_len content sys) off len fh = .ELUnknown) :
    read_part_from_file_intern content off len fh sys
      = read_buffered_tail content off len .ELUnknown sys := by
  unfold read_part_from_file_intern
  rw [heval]

/-- Claim C1, counterexample.  The claim sets requested to plus infinity for
an unbounded request, so an unbounded non exact request with unknown file
length would fall into the requested above maxlen branch and resolve to
Bounded of the ceiling; the code sets requested to the ceiling itself
(backend.rs line 37) and resolves the same input to Unknown. -/
theorem c1_counterexample :
    eval_length none 0 { bound := none, is_exact := false } none = .ELUnknown
    ∧ spec_resolve_claimed none 0 { bound := none, is_exact := false }
        = .ELBounded isizeMax
    ∧ ¬(EvaluatedLength.ELUnknown = EvaluatedLength.ELBounded isizeMax) := by
  refine ⟨by decide, by decide, by decide⟩

/-- Claim C1 as amended: with requested taken as the maxlen_i ceiling for an
unbounded request (instead of plus infinity), the resolver of the code
computes exactly the case analysis of the claim, whenever the effective file
length is consistent with the offset (no underflow) and is a u64 value. -/
theorem c1_amended_resolver (q fh : Option Nat) (off : Nat) (ls : LengthSpec)
    (hin : ∀ lx, fh.or q = some lx → off ≤ lx ∧ lx < u64Mod) :
    eval_length q off ls fh = spec_resolve_amended (fh.or q) off ls := by
  cases heq : fh.or q with
  | none =>
      cases hb : ls.bound with
      | none => simp [eval_length, spec_resolve_amended, heq, hb]
      | some n => simp [eval_length, spec_resolve_amended, heq, hb]
  | some lx =>
      obtain ⟨h1, h2⟩ := hin lx heq
      have hw : wsub64 lx off = lx - off := wsub64_eq_sub lx off h2 h1
      cases hb : ls.bound with
      | none => simp [eval_length, spec_resolve_amended, heq, hb, hw]
      | some n => simp [eval_length, spec_resolve_amended, heq, hb, hw]

/-- Witness for c1_amended_resolver at a concrete input. -/
theorem c1_witness :
    eval_length none 3 { bound := some 4, is_exact := true } (some 10)
      = spec_resolve_amended ((some 10).or none) 3 { bound := some 4, is_exact := true } :=
  c1_amended_resolver none (some 10) 3 { bound := some 4, is_exact := true }
    (fun lx h => by
      injection h with hh
      subst hh
      exact ⟨by decide, by decide⟩)

/-- Claim C4: the code does not guard the subtraction file_length minus
offset.  At cached length 10 and offset 11 the wrapping subtraction of
backend.rs line 40 yields 2 ^ 64 - 1 instead of the remaining length 0
demanded by the claim, the resolver answers ELBounded 1 for a non exact
bound of 1 instead of ELBounded 0, and the buffered read then returns a one
byte zero padded handle instead of an empty one (a debug build would panic
at the subtraction). -/
theorem c4_underflow_eval :
    wsub64 10 11 = 18446744073709551615
    ∧ eval_length none 11 { bound := some 1, is_exact := false } (some 10)
        = .ELBounded 1
    ∧ read_part_from_file_intern r10 11 { bound := some 1, is_exact := false }
        (some 10) sysB = .ok (.Buffered [0])
    ∧ (FileHandle.Buffered [0]).len = 1 := by
  refine ⟨by decide, by decide, by decide, by decide⟩

/-- Claim C9: size_hint ignores the request bound.  With cached length 10,
offset 0 and bound 4 the code answers the byte count 10 as the lower
estimate and no upper estimate, not the element estimate given by the claim,
floor of (10 - 0) / 4 = 2 (the true remaining element count is 3, so the
answer 10 also overstates the lower bound of the iterator contract). -/
theorem c9_size_hint_eval :
    ChunkedFile.size_hint
        { cf := { content := r10, flen := some 10, offset := 0 },
          lns := { bound := some 4, is_exact := false } } = (10, none)
    ∧ (10 - 0) / 4 = 2
    ∧ ¬((10 : Nat) = 2) := by
  refine ⟨by decide, by decide, by decide⟩

/-- Claim C10: an end relative seek with a positive delta always fails with
an invalid input error and leaves the cursor unchanged; it always fails when
the cached length is unknown; and it can succeed only with a nonpositive
delta whose magnitude is at most the cached length, the new offset being the
cached length minus that magnitude. -/
theorem c10_end_seek :
    (∀ (cf : ContinuableFile) (x : Int), 0 < x →
      cf.seek (.fromEnd x) = (.error .invalidInput, cf))
    ∧ (∀ (cf : ContinuableFile) (x : Int), cf.flen = none →
      cf.seek (.fromEnd x) = (.error .invalidInput, cf))
    ∧ (∀ (cf : ContinuableFile) (x : Int) (y : Nat),
      -(9223372036854775808 : Int) ≤ x →
      (cf.seek (.fromEnd x)).1 = .ok y →
      x ≤ 0 ∧ ∃ fl, cf.flen = some fl ∧ (-x).toNat ≤ fl ∧ y = fl - (-x).toNat
        ∧ (cf.seek (.fromEnd x)).2.offset = y) := by
  refine ⟨?_, ?_, ?_⟩
  · intro cf x hx
    simp [ContinuableFile.seek, hx]
  · intro cf x hfl
    unfold ContinuableFile.seek
    rcases lt_or_le 0 x with h | h
    · simp [h]
    · simp [Nat.not_lt.mpr, hfl, not_lt.mpr h]
  · intro cf x y hrange hok
    unfold ContinuableFile.seek at hok ⊢
    by_cases hx : 0 < x
    · simp [hx] at hok
    · rcases hfl : cf.flen with _ | fl
      · simp [hx, hfl] at hok
      · by_cases hlt : fl < neg_as_u64 x
        · simp [hx, hfl, hlt] at hok
        · have hneg : neg_as_u64 x = (-x).toNat := by
            unfold neg_as_u64
            rw [Int.emod_eq_of_lt (by omega) (by unfold u64ModI; omega)]
          simp [hx, hfl, hlt] at hok
          refine ⟨by omega, fl, rfl, ?_, ?_, ?_⟩
          · rw [← hneg]; omega
          · rw [← hok, hneg]
          · simp [hx, hfl, hlt, hok]

/-- Witness for c10_end_seek at a concrete input: a positive end relative
delta fails on a cursor with known length 5. -/
theorem c10_witness :
    ContinuableFile.seek { content := [], flen := some 5, offset := 0 } (.fromEnd 1)
      = (.error .invalidInput, { content := [], flen := some 5, offset := 0 }) :=
  c10_end_seek.1 { content := [], flen := some 5, offset := 0 } 1 (by decide)

/-- Claim C7, counterexample.  The claim says a resulting offset exceeding
the known cached file length is rejected; but a relative seek of +100 from
offset 5 on a cursor whose cached length is 10 succeeds and sets the offset
to 105 (lib.rs lines 160 to 163 only check underflow for negative deltas). -/
theorem c7_counterexample :
    ContinuableFile.seek { content := [], flen := some 10, offset := 5 } (.current 100)
      = (.ok 105, { content := [], flen := some 10, offset := 105 })
    ∧ (10 : Nat) < 105 := by
  refine ⟨by decide, by decide⟩

/-- Claim C7 as amended: every seek rejection returns an invalid input error
and leaves the cursor unchanged; a relative or end relative negative delta
whose magnitude exceeds the base is rejected, through the explicit checked
subtraction of do_offset_add; but a nonnegative relative delta is added with
plain wrapping u64 addition and the result is not checked against the cached
length, and an absolute seek sets the offset unconditionally, so seeks
beyond the cached length through Start or Current succeed. -/
theorem c7_seek_amended :
    (∀ (cf : ContinuableFile) (pos : SeekFrom) (e : IOErr),
      (cf.seek pos).1 = .error e → e = .invalidInput ∧ (cf.seek pos).2 = cf)
    ∧ (∀ (cf : ContinuableFile) (x : Int), x < 0 → cf.offset < neg_as_u64 x →
      cf.seek (.current x) = (.error .invalidInput, cf))
    ∧ (∀ (cf : ContinuableFile) (x : Int) (fl : Nat), x ≤ 0 → cf.flen = some fl →
      fl < neg_as_u64 x →
      cf.seek (.fromEnd x) = (.error .invalidInput, cf))
    ∧ (∀ (cf : ContinuableFile) (x : Int), 0 ≤ x →
      cf.seek (.current x)
        = (.ok ((cf.offset + x.toNat) % u64Mod),
           { cf with offset := (cf.offset + x.toNat) % u64Mod }))
    ∧ (∀ (cf : ContinuableFile) (y : Nat),
      cf.seek (.start y) = (.ok y, { cf with offset := y })) := by
  refine ⟨?_, ?_, ?_, ?_, ?_⟩
  · intro cf pos e herr
    cases pos with
    | start yy => simp [ContinuableFile.seek] at herr
    | fromEnd x =>
        unfold ContinuableFile.seek at herr ⊢
        by_cases hx : 0 < x
        · simp_all
        · rcases hfl : cf.flen with _ | fl
          · simp_all
          · by_cases hlt : fl < neg_as_u64 x
            · simp_all
            · simp_all
    | current x =>
        unfold ContinuableFile.seek at herr ⊢
        rcases hadd : do_offset_add cf.offset x with _ | y
        · simp_all
        · simp_all
  · intro cf x hneg hmag
    have hadd : do_offset_add cf.offset x = none := by
      unfold do_offset_add
      simp [hneg, Nat.not_le.mpr hmag]
    simp [ContinuableFile.seek, hadd]
  · intro cf x fl hx hfl hmag
    unfold ContinuableFile.seek
    rcases lt_or_le 0 x with h | h
    · omega
    · simp [not_lt.mpr h, hfl, hmag]
  · intro cf x hx
    have hadd : do_offset_add cf.offset x = some ((cf.offset + x.toNat) % u64Mod) := by
      unfold do_offset_add
      simp [Int.not_lt.mpr hx]
    simp [ContinuableFile.seek, hadd]
  · intro cf y
    simp [ContinuableFile.seek]

/-- Witness for c7_seek_amended at a concrete input: a relative delta of -7
from offset 5 underflows and is rejected with the cursor unchanged. -/
theorem c7_witness :
    ContinuableFile.seek { content := [], flen := some 10, offset := 5 } (.current (-7))
      = (.error .invalidInput, { content := [], flen := some 10, offset := 5 }) :=
  c7_seek_amended.2.1 { content := [], flen := some 10, offset := 5 } (-7)
    (by decide) (by decide)

/-- Claim C5: when the resolver yields a positive bounded count and mapping
creation fails, the call is exactly the buffered tail computation, so a
mapping failure is never surfaced by itself and the call can only fail where
the buffered read fails. -/
theorem c5_mmap_fallback (content : List Nat) (off : Nat) (len : LengthSpec)
    (fh : Option Nat) (sys : SysModel) (lx : Nat)
    (hmm : sys.mmapOk = false)
    (heval : eval_length (get_file_len content sys) off len fh = .ELBounded lx)
    (hpos : 0 < lx) :
    read_part_from_file_intern content off len fh sys
      = read_buffered_tail content off len (.ELBounded lx) sys
    ∧ ∀ e, read_part_from_file_intern content off len fh sys = .error e →
        read_buffered_tail content off len (.ELBounded lx) sys = .error e := by
  have hmmap : open_as_mmap content off lx sys = none := by
    simp [open_as_mmap, hmm]
  obtain ⟨m, rfl⟩ : ∃ m, lx = m + 1 := ⟨lx - 1, by omega⟩
  have heq : read_part_from_file_intern content off len fh sys
      = read_buffered_tail content off len (.ELBounded (m + 1)) sys := by
    rw [read_part_of_eval_bounded_succ content off len fh sys m heval, hmmap]
  exact ⟨heq, fun e he => heq.symm.trans he⟩

/-- Witness for c5_mmap_fallback at a concrete input: four exact bytes of
the ten byte file with a failing mapping primitive. -/
theorem c5_witness :
    read_part_from_file_intern r10 0 { bound := some 4, is_exact := true }
        (some 10) sysB
      = read_buffered_tail r10 0 { bound := some 4, is_exact := true }
        (.ELBounded 4) sysB :=
  (c5_mmap_fallback r10 0 { bound := some 4, is_exact := true } (some 10) sysB 4
    (by decide) (by decide) (by decide)).1

/-- Claim C6: a request resolved as Unknown never attempts a mapping (the
result does not depend on the mapping oracle) and streams to end of input;
if read_to_end fails after obtaining some bytes, the error is propagated
exactly when the request was exact or no byte was obtained, and otherwise
the bytes obtained so far are returned as a success. -/
theorem c6_unknown_stream (content : List Nat) (off : Nat) (len : LengthSpec)
    (fh : Option Nat) (sys : SysModel)
    (hseek : sys.seekOk = true)
    (heval : eval_length (get_file_len content sys) off len fh = .ELUnknown) :
    (∀ b, read_part_from_file_intern content off len fh { sys with mmapOk := b }
        = read_part_from_file_intern content off len fh sys)
    ∧ (sys.rte = .ok →
        read_part_from_file_intern content off len fh sys
          = .ok (.Buffered (content.drop off)))
    ∧ (∀ k, sys.rte = .fail k →
        (len.is_exact = true ∨ (content.drop off).take k = []) →
        read_part_from_file_intern content off len fh sys = .error .readErr)
    ∧ (∀ k, sys.rte = .fail k → len.is_exact = false →
        ¬((content.drop off).take k = []) →
        read_part_from_file_intern content off len fh sys
          = .ok (.Buffered ((content.drop off).take k))) := by
  have htail := read_part_of_eval_unknown content off len fh sys heval
  refine ⟨?_, ?_, ?_, ?_⟩
  · intro b
    have heval2 : eval_length (get_file_len content { sys with mmapOk := b })
        off len fh = .ELUnknown := heval
    have h2 := read_part_of_eval_unknown content off len fh
      { sys with mmapOk := b } heval2
    rw [h2, htail]
    cases sys
    rfl
  · intro hrte
    rw [htail]
    simp [read_buffered_tail, hseek, hrte]
  · intro k hrte hcase
    rw [htail]
    have hred : read_buffered_tail content off len .ELUnknown sys
        = if len.is_exact = true ∨ (content.drop off).take k = [] then
            (.error .readErr : Except IOErr FileHandle)
          else .ok (.Buffered ((content.drop off).take k)) := by
      unfold read_buffered_tail
      rw [hseek, hrte]
      rfl
    rw [hred, if_pos hcase]
  · intro k hrte hex hne
    rw [htail]
    simp only [read_buffered_tail, hseek]
    rw [hrte]
    simp [hex, hne]

/-- Witness for c6_unknown_stream at a concrete input: an unbounded non
exact read over an unknown length stream that fails after three bytes
returns those three bytes successfully. -/
theorem c6_witness :
    read_part_from_file_intern r10 0 { bound := none, is_exact := false }
        none sysU = .ok (.Buffered [0, 1, 2]) := by
  have h := (c6_unknown_stream r10 0 { bound := none, is_exact := false }
    none sysU (by decide) (by decide)).2.2.2 3 (by decide) (by decide) (by decide)
  rw [h]
  rfl

/-- Claim C2 as amended: for a bounded exact request at an offset inside the
file, if n is at most the remaining bytes and at most the platform ceiling
isize MAX then the read returns a handle of exactly n bytes, and if n
exceeds the remaining bytes the call fails with an invalid input error
before any input output is attempted. -/
theorem c2_exact_read (content : List Nat) (off n : Nat) (sys : SysModel)
    (hseek : sys.seekOk = true) (hre : sys.readExactFail = false)
    (hoff : off ≤ content.length) (hL : content.length < u64Mod) :
    (n ≤ content.length - off → n ≤ isizeMax →
      ∃ hdl, read_part_from_file_intern content off
          { bound := some n, is_exact := true } (some content.length) sys
          = .ok hdl ∧ hdl.len = n)
    ∧ (content.length - off < n →
      read_part_from_file_intern content off
          { bound := some n, is_exact := true } (some content.length) sys
        = .error .invalidInput) := by
  constructor
  · intro hle hni
    have heval : eval_length (get_file_len content sys) off
        { bound := some n, is_exact := true } (some content.length)
        = .ELBounded n :=
      eval_length_bounded_of_le _ content.length off n true hoff hL hle hni
    cases n with
    | zero =>
        exact ⟨.Buffered [], read_part_of_eval_zero _ _ _ _ _ heval, rfl⟩
    | succ m =>
        have htake : ((content.drop off).take (m + 1)).length = m + 1 := by
          rw [List.length_take, List.length_drop]
          omega
        have hrw := read_part_of_eval_bounded_succ content off
          { bound := some (m + 1), is_exact := true } (some content.length) sys m heval
        have htail : read_buffered_tail content off
            { bound := some (m + 1), is_exact := true } (.ELBounded (m + 1)) sys
            = .ok (.Buffered ((content.drop off).take (m + 1))) := by
          simp [read_buffered_tail, hseek, hre, htake]
        cases hmm : sys.mmapOk with
        | true =>
            have hsome : open_as_mmap content off (m + 1) sys
                = some ((content.drop off).take (m + 1)) := by
              simp [open_as_mmap, hmm]
            refine ⟨.Mapped ((content.drop off).take (m + 1)), ?_, ?_⟩
            · rw [hrw, hsome]
            · simp [FileHandle.len, FileHandle.get_slice, htake]
        | false =>
            have hnone : open_as_mmap content off (m + 1) sys = none := by
              simp [open_as_mmap, hmm]
            refine ⟨.Buffered ((content.drop off).take (m + 1)), ?_, ?_⟩
            · rw [hrw, hnone]
              exact htail
            · simp [FileHandle.len, FileHandle.get_slice, htake]
  · intro hgt
    exact read_part_of_eval_impossible _ _ _ _ _
      (eval_length_impossible_of_lt _ content.length off n hoff hL
        (lt_of_le_of_lt (min_le_left _ _) hgt))

/-- Claim C2, counterexample.  A request for exactly 2 ^ 63 bytes of a file
holding 2 ^ 63 bytes satisfies n at most the remaining bytes, yet the call
fails with an invalid input error because n exceeds the platform ceiling
isize MAX = 2 ^ 63 - 1 (backend.rs lines 42 and 47), instead of returning a
handle of n bytes as the claim demands. -/
theorem c2_counterexample :
    9223372036854775808 ≤ (List.replicate 9223372036854775808 (0 : Nat)).length - 0
    ∧ read_part_from_file_intern (List.replicate 9223372036854775808 (0 : Nat)) 0
        { bound := some 9223372036854775808, is_exact := true }
        (some 9223372036854775808) sysM
      = .error .invalidInput := by
  constructor
  · rw [List.length_replicate]
  · exact read_part_of_eval_impossible _ _ _ _ _
      (eval_length_impossible_of_lt _ 9223372036854775808 0 9223372036854775808
        (by decide) (by decide) (by decide))

/-- Witness for c2_exact_read at a concrete input: three exact bytes at
offset two of the ten byte file. -/
theorem c2_witness :
    ∃ hdl, read_part_from_file_intern r10 2 { bound := some 3, is_exact := true }
        (some r10.length) sysB = .ok hdl ∧ hdl.len = 3 :=
  (c2_exact_read r10 2 3 sysB (by decide) (by decide) (by decide) (by decide)).1
    (by decide) (by decide)

/-- Claim C3 as amended: for a bounded non exact request at an offset inside
the file whose bound exceeds the remaining bytes, if the remaining count is
at most the platform ceiling isize MAX then the read succeeds and returns
exactly the remaining bytes of the file from the offset. -/
theorem c3_nonexact_clamp (content : List Nat) (off n : Nat) (sys : SysModel)
    (hseek : sys.seekOk = true) (hrf : sys.readFail = false)
    (hoff : off ≤ content.length) (hL : content.length < u64Mod)
    (hgt : content.length - off < n) (hrem : content.length - off ≤ isizeMax) :
    ∃ hdl, read_part_from_file_intern content off
        { bound := some n, is_exact := false } (some content.length) sys
        = .ok hdl ∧ hdl.get_slice = content.drop off := by
  have heval : eval_length (get_file_len content sys) off
      { bound := some n, is_exact := false } (some content.length)
      = .ELBounded (content.length - off) := by
    have h := eval_length_clamp_of_lt (get_file_len content sys)
      content.length off n hoff hL (lt_of_le_of_lt (min_le_left _ _) hgt)
    rw [min_eq_left hrem] at h
    exact h
  have hdroplen : (content.drop off).length = content.length - off :=
    List.length_drop _ _
  have htakedrop : (content.drop off).take (content.length - off)
      = content.drop off := by
    rw [← hdroplen]
    exact List.take_length _
  rcases hz : content.length - off with _ | m
  · rw [hz] at heval
    refine ⟨.Buffered [], read_part_of_eval_zero _ _ _ _ _ heval, ?_⟩
    have hnil : (content.drop off).length = 0 := by rw [hdroplen, hz]
    exact (List.eq_nil_of_length_eq_zero hnil).symm
  · rw [hz] at heval htakedrop
    have hrw := read_part_of_eval_bounded_succ content off
      { bound := some n, is_exact := false } (some content.length) sys m heval
    have htl : ((content.drop off).take (m + 1)).length = m + 1 := by
      rw [htakedrop, hdroplen]
      exact hz
    cases hmm : sys.mmapOk with
    | true =>
        have hsome : open_as_mmap content off (m + 1) sys
            = some ((content.drop off).take (m + 1)) := by
          simp [open_as_mmap, hmm]
        refine ⟨.Mapped (content.drop off), ?_, rfl⟩
        rw [hrw, hsome, htakedrop]
    | false =>
        have hnone : open_as_mmap content off (m + 1) sys = none := by
          simp [open_as_mmap, hmm]
        refine ⟨.Buffered (content.drop off), ?_, rfl⟩
        rw [hrw, hnone]
        simp [read_buffered_tail, hseek, hrf, htl, htakedrop]
        omega

/-- Claim C3, counterexample.  A non exact request for 2 ^ 63 + 2 bytes of a
file holding 2 ^ 63 + 1 bytes has a bound exceeding the remaining bytes, yet
the call returns only isize MAX = 2 ^ 63 - 1 bytes, fewer than the remaining
2 ^ 63 + 1, because the clamp target is capped by the platform ceiling
(backend.rs lines 42 and 46). -/
theorem c3_counterexample :
    (List.replicate 9223372036854775809 (0 : Nat)).length - 0 < 9223372036854775810
    ∧ read_part_from_file_intern (List.replicate 9223372036854775809 (0 : Nat)) 0
        { bound := some 9223372036854775810, is_exact := false }
        (some 9223372036854775809) sysM
      = .ok (.Mapped (List.replicate 9223372036854775807 (0 : Nat)))
    ∧ ¬((FileHandle.Mapped (List.replicate 9223372036854775807 (0 : Nat))).len
        = ((List.replicate 9223372036854775809 (0 : Nat)).drop 0).length) := by
  refine ⟨?_, ?_, ?_⟩
  · rw [List.length_replicate]
    omega
  · have heval : eval_length
        (get_file_len (List.replicate 9223372036854775809 (0 : Nat)) sysM) 0
        { bound := some 9223372036854775810, is_exact := false }
        (some 9223372036854775809) = .ELBounded (9223372036854775806 + 1) := by
      have h := eval_length_clamp_of_lt
        (get_file_len (List.replicate 9223372036854775809 (0 : Nat)) sysM)
        9223372036854775809 0 9223372036854775810 (by decide) (by decide) (by decide)
      rw [show min (9223372036854775809 - 0) isizeMax = 9223372036854775806 + 1
        from by decide] at h
      exact h
    have hrw := read_part_of_eval_bounded_succ
      (List.replicate 9223372036854775809 (0 : Nat)) 0
      { bound := some 9223372036854775810, is_exact := false }
      (some 9223372036854775809) sysM 9223372036854775806 heval
    have hsome : open_as_mmap (List.replicate 9223372036854775809 (0 : Nat)) 0
        (9223372036854775806 + 1) sysM
        = some (((List.replicate 9223372036854775809 (0 : Nat)).drop 0).take
            (9223372036854775806 + 1)) := rfl
    rw [hrw, hsome, List.drop_zero, List.take_replicate]
    rw [show min (9223372036854775806 + 1) 9223372036854775809
      = 9223372036854775807 from by omega]
  · have e1 : (FileHandle.Mapped (List.replicate 9223372036854775807 (0 : Nat))).len
        = (List.replicate 9223372036854775807 (0 : Nat)).length := rfl
    rw [e1, List.drop_zero, List.length_replicate, List.length_replicate]
    omega

/-- Witness for c3_nonexact_clamp at a concrete input: a non exact bound of
100 at offset 6 of the ten byte file returns exactly the last four bytes. -/
theorem c3_witness :
    ∃ hdl, read_part_from_file_intern r10 6 { bound := some 100, is_exact := false }
        (some r10.length) sysB = .ok hdl ∧ hdl.get_slice = r10.drop 6 :=
  c3_nonexact_clamp r10 6 100 sysB (by decide) (by decide) (by decide) (by decide)
    (by decide) (by decide)

/-- Claim C8, counterexample.  The claim says an error is surfaced once and
terminates the sequence without the read being retried; but after the
iterator yields an error element the cursor state is unchanged, and the next
step performs the same read again and yields the same error element instead
of terminating: over the ten byte file with the always failing request of
twenty exact bytes, two consecutive steps both yield the invalid input
error and the second step does not terminate the sequence. -/
theorem c8_counterexample :
    (cErr.next sysB).1 = some (.error .invalidInput)
    ∧ ((cErr.next sysB).2.next sysB).1 = some (.error .invalidInput)
    ∧ ¬(((cErr.next sysB).2.next sysB).1 = none) := by
  refine ⟨by decide, by decide, by decide⟩

/-- Claim C8 as amended: each step applies the fixed LengthSpec through the
cursor advance read; a step terminates the iteration exactly when that read
returns a zero length successful handle, and that handle is never yielded;
an error is yielded as an element for its step with the iterator state
unchanged, so it does not terminate the iteration and a later step retries
the read; the ten byte file with bound four, not exact, yields chunks of
lengths four, four and two and then terminates. -/
theorem c8_chunked_amended :
    (∀ (c : ChunkedFile) (sys : SysModel),
      ((c.next sys).1 = none
        ↔ ∃ x, (c.cf.next c.lns sys).1 = .ok x ∧ x.len = 0))
    ∧ (∀ (c : ChunkedFile) (sys : SysModel) (e : IOErr),
      (c.cf.next c.lns sys).1 = .error e →
      (c.next sys).1 = some (.error e) ∧ (c.next sys).2 = c)
    ∧ ((c8s0.next sysB).1 = some (.ok (.Buffered [0, 1, 2, 3]))
      ∧ (c8s1.next sysB).1 = some (.ok (.Buffered [4, 5, 6, 7]))
      ∧ (c8s2.next sysB).1 = some (.ok (.Buffered [8, 9]))
      ∧ (c8s3.next sysB).1 = none) := by
  refine ⟨?_, ?_, by decide, by decide, by decide, by decide⟩
  · intro c sys
    unfold ChunkedFile.next
    rcases h : c.cf.next c.lns sys with ⟨item, cf2⟩
    cases item with
    | ok x =>
        by_cases hz : x.len = 0
        · simp [h, hz]
        · simp [h, hz]
    | error e => simp [h]
  · intro c sys e he
    unfold ChunkedFile.next
    unfold ContinuableFile.next at he ⊢
    rcases hrp : read_part_from_file_intern c.cf.content c.cf.offset c.lns c.cf.flen sys
      with e2 | rfh
    · rw [hrp] at he
      simp at he
      subst he
      constructor
      · rfl
      · rfl
    · rw [hrp] at he
      simp at he

/-- Witness for c8_chunked_amended at a concrete input: the always failing
request yields its error as an element and leaves the iterator unchanged. -/
theorem c8_witness :
    (cErr.next sysB).1 = some (.error .invalidInput) ∧ (cErr.next sysB).2 = cErr :=
  c8_chunked_amended.2.1 cErr sysB .invalidInput (by decide)
